import Mathlib

/-!
Verification of the internet-radio PCM audio pipeline
(`src/radiobenziger/radiobenziger.ino`, `src/radiobenziger/audio-test.ino.back`,
`src/unnamed/part_007` = `AudioStreamer.cpp`).

The FreeRTOS queue is modelled as a Lean `List` whose head is the front
(oldest) element; `xQueueSend` appends at the back, `xQueueReceive` removes
the head.  Machine integers (`size_t`, `uint8_t`, `uint32_t`) are modelled as
`Nat`, 16-bit samples as `Int`; the double-precision phase accumulator is
modelled in exact rational arithmetic, measured in turns (one turn = 2*pi
radians), so that the increment `2*pi*f/sampleRate` radians per sample
becomes `f/sampleRate` turns and the wrap at `2*pi` becomes a wrap at `1`.
-/

/-- Queue depth used by the network-streaming deployment
(`AUDIO_BUFFER_QUEUE_SIZE` in `radiobenziger.ino`). -/
def AUDIO_BUFFER_QUEUE_SIZE : ℕ := 20

/-- Samples per chunk in the network-streaming deployment
(`AUDIO_CHUNK_SAMPLES` in `radiobenziger.ino`). -/
def AUDIO_CHUNK_SAMPLES : ℕ := 1600

/-- HTTP read buffer size in bytes (`HTTP_BUFFER_SIZE` in `radiobenziger.ino`). -/
def HTTP_BUFFER_SIZE : ℕ := 6400

/-- The `AudioBuffer` struct of `radiobenziger.ino` (network-streaming mode):
a fixed array of mono 16-bit samples plus `sampleCount`, `isValid` and
`isSilence` flags.  The fixed array is modelled as a list of integers. -/
structure AudioBuffer where
  samples : List ℤ
  sampleCount : ℕ
  isValid : Bool
  isSilence : Bool
deriving DecidableEq

/-- The default `AudioBuffer()` constructor: zeroed samples, count 0,
invalid, marked silence. -/
def AudioBuffer.init : AudioBuffer :=
  ⟨List.replicate AUDIO_CHUNK_SAMPLES 0, 0, false, true⟩

/-- The `AudioBuffer(const int16_t* data, size_t count)` constructor:
`sampleCount` is set to `count` unconditionally, `isValid` to true and
`isSilence` to false; the sample array is first zeroed (`memset`) and the
`memcpy` of `count` samples from `data` is performed only when
`count <= AUDIO_CHUNK_SAMPLES`. -/
def mkAudioBuffer (data : List ℤ) (count : ℕ) : AudioBuffer :=
  { samples :=
      if count ≤ AUDIO_CHUNK_SAMPLES then
        data.take count ++ List.replicate (AUDIO_CHUNK_SAMPLES - count) 0
      else
        List.replicate AUDIO_CHUNK_SAMPLES 0
    sampleCount := count
    isValid := true
    isSilence := false }

/-- `AudioBuffer::createSilence()`: a full-length zeroed chunk marked valid
and silent. -/
def AudioBuffer.createSilence : AudioBuffer :=
  ⟨List.replicate AUDIO_CHUNK_SAMPLES 0, AUDIO_CHUNK_SAMPLES, true, true⟩

/-- Synthetic-generator send (`audioGeneratorTask` in `audio-test.ino.back`):
`xQueueSend(queue, &buffer, 0)` with no pre-eviction — if the queue is full
the send fails immediately and the chunk is skipped. -/
def syntheticSend {α : Type} (cap : ℕ) (q : List α) (b : α) : List α :=
  if q.length < cap then q ++ [b] else q

/-- Network-puller send (`streamingTask` in `radiobenziger.ino`): when
`uxQueueSpacesAvailable` is 0 the oldest chunk is first dequeued
(`xQueueReceive`), then the new chunk is enqueued. -/
def networkSend {α : Type} (cap : ℕ) (q : List α) (b : α) : List α :=
  if cap - q.length = 0 then q.drop 1 ++ [b] else q ++ [b]

/-- The streaming control state mutated by `startPCMStreaming` /
`stopPCMStreaming`: the two shared flags plus the buffer queue they guard. -/
structure StreamControl where
  streamingRequested : Bool
  streamingActive : Bool
  queue : List AudioBuffer
deriving DecidableEq

/-- `stopPCMStreaming` in `radiobenziger.ino`: when streaming was requested
it clears both flags and then drains the queue with repeated
`xQueueReceive(..., 0)` until empty (it also clears the output sink's
internal buffers, outside this state).  When streaming was not requested it
changes nothing. -/
def stopPCMStreaming (s : StreamControl) : StreamControl :=
  if s.streamingRequested then ⟨false, false, []⟩ else s

/-- A concrete pre-stop state with one chunk queued, used to exhibit the
behaviour of `stopPCMStreaming` on a non-empty queue. -/
def stopExampleState : StreamControl :=
  ⟨true, true, [AudioBuffer.createSilence]⟩

/-- Models the truncating C cast in `(int16_t)(samples[i] * volumeMultiplier)`
of `AudioStreamer::applyVolumeControl`; the `float` multiply by
`currentVolume / 100.0f` is modelled as exact integer scaling with
truncation toward zero.  (Only the `volume >= 100` identity branch, which
performs no arithmetic at all, is relied on by the theorems below.) -/
def scaleSample (vol : ℕ) (s : ℤ) : ℤ :=
  Int.tdiv (s * (vol : ℤ)) 100

/-- `AudioStreamer::applyVolumeControl`: returns immediately (identity) when
`currentVolume >= 100`, otherwise scales every 16-bit sample. -/
def applyVolumeControl (vol : ℕ) (samples : List ℤ) : List ℤ :=
  if 100 ≤ vol then samples else samples.map (scaleSample vol)

/-- `AudioStreamer::setVolume(uint8_t level)`: clamps `level` to 100 and
stores it; the stored value is the new `currentVolume` (the previous value
is discarded). -/
def setVolume (level : ℕ) : ℕ :=
  if 100 < level then 100 else level

/-- Initial value of `AudioStreamer::currentVolume` (static initializer 75). -/
def initialVolume : ℕ := 75

/-- `AudioStreamer::getVolume()`: returns the stored `currentVolume`. -/
def getVolume (v : ℕ) : ℕ := v

/-- The persistent static state of `generateTestTone` in
`audio-test.ino.back`: `lastFrequency`, `phaseAccumulator` and
`lastSampleRate`.  The phase is measured in turns (1 turn = 2*pi radians),
so the double arithmetic of the source maps to exact rational arithmetic. -/
structure GenState where
  lastFrequency : ℚ
  phaseAccumulator : ℚ
  lastSampleRate : ℕ
deriving DecidableEq

/-- The per-sample phase wrap of `generateTestTone`:
`if (phaseAccumulator >= 2.0 * M_PI) phaseAccumulator -= 2.0 * M_PI;`,
in turns: subtract 1 once when the phase has reached 1. -/
def wrapPhase (ph : ℚ) : ℚ :=
  if 1 ≤ ph then ph - 1 else ph

/-- The sample-generation loop of `generateTestTone`: for each of `n`
samples, emit `sampleOf phase` once per channel, then advance the phase by
`freq / rate` turns (the source's `2*pi*frequency/sampleRate` radians) and
wrap it.  `sampleOf` abstracts the pointwise sample formula
`(int16_t)(0.2f * 32767.0f * sin(2*pi*phase))`, which depends only on the
phase.  Returns the emitted samples and the final phase. -/
def genSamples (sampleOf : ℚ → ℤ) (freq : ℚ) (rate : ℕ) (channels : ℕ) :
    ℕ → ℚ → List ℤ × ℚ
  | 0, ph => ([], ph)
  | n + 1, ph =>
    let next := genSamples sampleOf freq rate channels n (wrapPhase (ph + freq / (rate : ℚ)))
    (List.replicate channels (sampleOf ph) ++ next.1, next.2)

/-- `generateTestTone(frequency, duration, sampleRate, channels)` with
`n = (size_t)(duration * sampleRate)` samples: if the frequency or the
sample rate differs from the remembered values, the phase accumulator is
reset to 0 and the remembered values are updated; then `n` samples are
generated from the (possibly reset) phase, and the final phase is stored
back into the static state. -/
def generateTestTone (sampleOf : ℚ → ℤ) (freq : ℚ) (n : ℕ) (rate : ℕ)
    (channels : ℕ) (st : GenState) : List ℤ × GenState :=
  let st0 := if freq ≠ st.lastFrequency ∨ rate ≠ st.lastSampleRate then
      (⟨freq, 0, rate⟩ : GenState) else st
  ((genSamples sampleOf freq rate channels n st0.phaseAccumulator).1,
   ⟨st0.lastFrequency,
    (genSamples sampleOf freq rate channels n st0.phaseAccumulator).2,
    st0.lastSampleRate⟩)

/-- Generating a sequence of consecutive chunks (one `generateTestTone` call
per chunk, threading the static state) and concatenating their samples. -/
def genChunkSeq (sampleOf : ℚ → ℤ) (freq : ℚ) (rate : ℕ) (channels : ℕ) :
    List ℕ → GenState → List ℤ × GenState
  | [], st => ([], st)
  | n :: ns, st =>
    let r := generateTestTone sampleOf freq n rate channels st
    let rest := genChunkSeq sampleOf freq rate channels ns r.2
    (r.1 ++ rest.1, rest.2)

/-- The sample loop is a fold: generating `n1 + n2` samples from a phase is
generating `n1` samples, then `n2` more from the resulting phase. -/
theorem genSamples_add (sampleOf : ℚ → ℤ) (freq : ℚ) (rate : ℕ) (channels : ℕ)
    (n1 n2 : ℕ) (ph : ℚ) :
    genSamples sampleOf freq rate channels (n1 + n2) ph =
      ((genSamples sampleOf freq rate channels n1 ph).1 ++
        (genSamples sampleOf freq rate channels n2
          (genSamples sampleOf freq rate channels n1 ph).2).1,
       (genSamples sampleOf freq rate channels n2
          (genSamples sampleOf freq rate channels n1 ph).2).2) := by
  induction n1 generalizing ph with
  | zero => simp [genSamples]
  | succ k ih =>
    have hadd : k + 1 + n2 = (k + n2) + 1 := by omega
    rw [hadd]
    simp only [genSamples, ih, List.append_assoc]

/-- After any `generateTestTone` call the remembered frequency and sample
rate equal the requested ones. -/
theorem generateTestTone_state (sampleOf : ℚ → ℤ) (freq : ℚ) (n : ℕ)
    (rate : ℕ) (channels : ℕ) (st : GenState) :
    (generateTestTone sampleOf freq n rate channels st).2.lastFrequency = freq ∧
    (generateTestTone sampleOf freq n rate channels st).2.lastSampleRate = rate := by
  by_cases h : freq ≠ st.lastFrequency ∨ rate ≠ st.lastSampleRate
  · simp [generateTestTone, h]
  · push_neg at h
    simp [generateTestTone, h.1, h.2]

/-- Evaluation of `generateTestTone` when the reset condition fires:
generation starts from phase 0. -/
theorem generateTestTone_reset (sampleOf : ℚ → ℤ) (freq : ℚ) (n : ℕ)
    (rate : ℕ) (channels : ℕ) (st : GenState)
    (h : freq ≠ st.lastFrequency ∨ rate ≠ st.lastSampleRate) :
    generateTestTone sampleOf freq n rate channels st =
      ((genSamples sampleOf freq rate channels n 0).1,
       ⟨freq, (genSamples sampleOf freq rate channels n 0).2, rate⟩) := by
  simp [generateTestTone, if_pos h]

/-- Evaluation of `generateTestTone` when frequency and sample rate are
unchanged: generation continues from the stored phase accumulator. -/
theorem generateTestTone_continue (sampleOf : ℚ → ℤ) (freq : ℚ) (n : ℕ)
    (rate : ℕ) (channels : ℕ) (st : GenState)
    (h1 : st.lastFrequency = freq) (h2 : st.lastSampleRate = rate) :
    generateTestTone sampleOf freq n rate channels st =
      ((genSamples sampleOf freq rate channels n st.phaseAccumulator).1,
       ⟨freq, (genSamples sampleOf freq rate channels n st.phaseAccumulator).2, rate⟩) := by
  have hcond : ¬ (freq ≠ st.lastFrequency ∨ rate ≠ st.lastSampleRate) := by
    simp [h1, h2]
  simp [generateTestTone, if_neg hcond, h1, h2]

/-- Two consecutive `generateTestTone` calls at the same frequency and
sample rate are one longer call: the phase accumulator is handed across the
chunk boundary unmodified, so the samples concatenate and the final states
agree. -/
theorem generateTestTone_concat (sampleOf : ℚ → ℤ) (freq : ℚ) (rate : ℕ)
    (channels : ℕ) (n1 n2 : ℕ) (st : GenState) :
    generateTestTone sampleOf freq (n1 + n2) rate channels st =
      ((generateTestTone sampleOf freq n1 rate channels st).1 ++
        (generateTestTone sampleOf freq n2 rate channels
          (generateTestTone sampleOf freq n1 rate channels st).2).1,
       (generateTestTone sampleOf freq n2 rate channels
          (generateTestTone sampleOf freq n1 rate channels st).2).2) := by
  by_cases h : freq ≠ st.lastFrequency ∨ rate ≠ st.lastSampleRate
  · rw [generateTestTone_reset sampleOf freq (n1 + n2) rate channels st h,
        generateTestTone_reset sampleOf freq n1 rate channels st h,
        generateTestTone_continue sampleOf freq n2 rate channels _ rfl rfl,
        genSamples_add]
  · push_neg at h
    rw [generateTestTone_continue sampleOf freq (n1 + n2) rate channels st h.1.symm h.2.symm,
        generateTestTone_continue sampleOf freq n1 rate channels st h.1.symm h.2.symm,
        generateTestTone_continue sampleOf freq n2 rate channels _ rfl rfl,
        genSamples_add]

/-- C2: at a fixed frequency and sample rate, generating any non-empty
sequence of consecutive chunks and concatenating them yields exactly the
samples (and the final phase state) of one unbroken generation of the
combined length — the phase accumulator is carried unmodified across chunk
boundaries. -/
theorem chunked_generation_eq_unbroken (sampleOf : ℚ → ℤ) (freq : ℚ)
    (rate : ℕ) (channels : ℕ) (sizes : List ℕ) (st : GenState)
    (hne : sizes ≠ []) :
    genChunkSeq sampleOf freq rate channels sizes st =
      generateTestTone sampleOf freq sizes.sum rate channels st := by
  induction sizes generalizing st with
  | nil => exact absurd rfl hne
  | cons n ns ih =>
    cases ns with
    | nil =>
      simp [genChunkSeq]
    | cons m ms =>
      have hns : (m :: ms) ≠ ([] : List ℕ) := by simp
      have step : genChunkSeq sampleOf freq rate channels (n :: m :: ms) st =
          ((generateTestTone sampleOf freq n rate channels st).1 ++
            (genChunkSeq sampleOf freq rate channels (m :: ms)
              (generateTestTone sampleOf freq n rate channels st).2).1,
           (genChunkSeq sampleOf freq rate channels (m :: ms)
              (generateTestTone sampleOf freq n rate channels st).2).2) := rfl
      rw [step, ih _ hns,
          show (n :: m :: ms).sum = n + (m :: ms).sum from List.sum_cons,
          generateTestTone_concat sampleOf freq rate channels n (m :: ms).sum st]

/-- Witness-style concrete check is not needed for
`chunked_generation_eq_unbroken` applications below; this concrete instance
discharges its hypothesis at `sizes = [2, 3]`. -/
theorem chunked_generation_eq_unbroken_witness :
    ([2, 3] : List ℕ) ≠ [] ∧
    genChunkSeq (fun q => q.num) (5 : ℚ) 8 2 [2, 3] ⟨0, 0, 0⟩ =
      generateTestTone (fun q => q.num) (5 : ℚ) ([2, 3] : List ℕ).sum 8 2 ⟨0, 0, 0⟩ :=
  ⟨by decide, chunked_generation_eq_unbroken (fun q => q.num) 5 8 2 [2, 3] ⟨0, 0, 0⟩ (by decide)⟩

/-- C6: when the requested frequency or sample rate differs from the
remembered values, the chunk's first sample is produced at phase 0
(regardless of the previous phase), and when both are unchanged no reset
occurs — the first sample continues from the stored phase accumulator. -/
theorem phase_reset_on_change (sampleOf : ℚ → ℤ) (freq : ℚ) (n : ℕ)
    (rate : ℕ) (channels : ℕ) (st : GenState) (hn : 1 ≤ n) (hch : 1 ≤ channels) :
    ((freq ≠ st.lastFrequency ∨ rate ≠ st.lastSampleRate) →
      (generateTestTone sampleOf freq n rate channels st).1.head? = some (sampleOf 0)) ∧
    (freq = st.lastFrequency → rate = st.lastSampleRate →
      (generateTestTone sampleOf freq n rate channels st).1.head? =
        some (sampleOf st.phaseAccumulator)) := by
  obtain ⟨k, rfl⟩ : ∃ k, n = k + 1 := ⟨n - 1, by omega⟩
  obtain ⟨c, rfl⟩ : ∃ c, channels = c + 1 := ⟨channels - 1, by omega⟩
  constructor
  · intro h
    simp [generateTestTone, if_pos h, genSamples, List.replicate_succ]
  · intro h1 h2
    have hcond : ¬ (freq ≠ st.lastFrequency ∨ rate ≠ st.lastSampleRate) := by
      simp [h1, h2]
    simp [generateTestTone, if_neg hcond, genSamples, List.replicate_succ]

/-- Witness for `phase_reset_on_change`: with remembered frequency 3 and a
requested frequency 5 the first sample is taken at phase 0 even though the
stored phase is 1/2; with unchanged frequency and rate it is taken at the
stored phase 1/2. -/
theorem phase_reset_on_change_witness :
    1 ≤ 2 ∧ 1 ≤ 2 ∧
    ((((5 : ℚ) ≠ (3 : ℚ) ∨ (8 : ℕ) ≠ (8 : ℕ)) →
      (generateTestTone (fun q => q.num) 5 2 8 2 ⟨3, 1/2, 8⟩).1.head? = some 0) ∧
     ((5 : ℚ) = (3 : ℚ) → (8 : ℕ) = (8 : ℕ) →
      (generateTestTone (fun q => q.num) 5 2 8 2 ⟨3, 1/2, 8⟩).1.head? =
        some ((fun q : ℚ => q.num) ((⟨3, 1/2, 8⟩ : GenState).phaseAccumulator))) ) :=
  ⟨by decide, by decide,
   phase_reset_on_change (fun q => q.num) 5 2 8 2 ⟨3, 1/2, 8⟩ (by decide) (by decide)⟩

/-- What a single cycle of the playback loop hands to the output sink:
a silence write, a real-audio write, or nothing. -/
inductive WriteKind
  | silence
  | real
deriving DecidableEq

/-- `MAX_SILENCE_BEFORE_MUTE` in `audioTask`: 4 buffers (200 ms) of silence
before muting. -/
def MAX_SILENCE_BEFORE_MUTE : ℕ := 4

/-- One cycle of `audioTask` in `radiobenziger.ino`, given the outcome of
the queue receive (`recv`), the shared flags and the running silence-streak
counter.  A received valid silence chunk (or any chunk while not active)
increments the streak and is written only while the streak is at most
`MAX_SILENCE_BEFORE_MUTE`; a received valid real chunk resets the streak and
is written; a failed receive while active and requested writes a silence
chunk unconditionally and increments the streak.  Returns the new streak
counter and what was written. -/
def audioStep (active requested : Bool) (recv : Option AudioBuffer)
    (silenceCount : ℕ) : ℕ × Option WriteKind :=
  match recv with
  | some b =>
    if b.isValid = true ∧ 0 < b.sampleCount then
      if b.isSilence = true ∨ active = false then
        (silenceCount + 1,
         if silenceCount + 1 ≤ MAX_SILENCE_BEFORE_MUTE then some WriteKind.silence else none)
      else
        (0, some WriteKind.real)
    else
      (silenceCount, none)
  | none =>
    if active = true ∧ requested = true then
      (silenceCount + 1, some WriteKind.silence)
    else
      (silenceCount, none)

/-- Iterating `audioStep` over a sequence of receive outcomes, collecting
the per-cycle writes. -/
def audioRun (active requested : Bool) :
    List (Option AudioBuffer) → ℕ → ℕ × List (Option WriteKind)
  | [], sc => (sc, [])
  | e :: es, sc =>
    ((audioRun active requested es (audioStep active requested e sc).1).1,
     (audioStep active requested e sc).2 ::
       (audioRun active requested es (audioStep active requested e sc).1).2)

/-- Number of cycles in a trace on which the output sink received a write. -/
def countWrites (ws : List (Option WriteKind)) : ℕ :=
  (ws.filterMap id).length

theorem countWrites_cons_some (w : WriteKind) (ws : List (Option WriteKind)) :
    countWrites (some w :: ws) = countWrites ws + 1 := by
  simp [countWrites]

theorem countWrites_cons_none (ws : List (Option WriteKind)) :
    countWrites (none :: ws) = countWrites ws := by
  simp [countWrites]

/-- Receiving `n` consecutive valid silence chunks while active and
requested produces writes on exactly the first `MAX_SILENCE_BEFORE_MUTE - sc`
cycles. -/
theorem audioRun_silence_writes (b : AudioBuffer) (hb1 : b.isValid = true)
    (hb2 : 0 < b.sampleCount) (hb3 : b.isSilence = true) :
    ∀ (n sc : ℕ),
      countWrites (audioRun true true (List.replicate n (some b)) sc).2 =
        min n (MAX_SILENCE_BEFORE_MUTE - sc) := by
  intro n
  induction n with
  | zero =>
    intro sc
    simp [audioRun, countWrites]
  | succ k ih =>
    intro sc
    rw [List.replicate_succ]
    simp only [audioRun, audioStep, hb1, hb2, hb3, eq_self_iff_true, true_and,
      and_self, true_or, if_true]
    by_cases hsc : sc + 1 ≤ MAX_SILENCE_BEFORE_MUTE
    · rw [if_pos hsc, countWrites_cons_some, ih (sc + 1)]
      simp only [MAX_SILENCE_BEFORE_MUTE] at hsc ⊢
      omega
    · rw [if_neg hsc, countWrites_cons_none, ih (sc + 1)]
      simp only [MAX_SILENCE_BEFORE_MUTE] at hsc ⊢
      omega

/-- While active and requested, every cycle on which the queue receive
fails writes silence to the output sink, no matter how long the streak
already is. -/
theorem audioRun_underrun_writes :
    ∀ (n sc : ℕ),
      countWrites (audioRun true true (List.replicate n none) sc).2 = n := by
  intro n
  induction n with
  | zero =>
    intro sc
    simp [audioRun, countWrites]
  | succ k ih =>
    intro sc
    rw [List.replicate_succ]
    simp only [audioRun, audioStep, and_self, if_true, if_pos trivial]
    rw [countWrites_cons_some, ih (sc + 1)]

/-- C3 counterexample: with the system active and requested and the queue
staying empty for 5 consecutive cycles (streak bound 4, streak starting at
0), the output sink receives a silence write on all 5 cycles — not on
exactly the first 4 as claimed. -/
theorem silence_streak_counterexample :
    countWrites (audioRun true true (List.replicate 5 none) 0).2 = 5 ∧
    ¬ countWrites (audioRun true true (List.replicate 5 none) 0).2 = 4 := by
  refine ⟨audioRun_underrun_writes 5 0, ?_⟩
  rw [audioRun_underrun_writes 5 0]
  omega

/-- C3 amended: while active and requested, a run of `n` received
silence-marked chunks starting from streak 0 produces silence writes on
exactly the first `min n 4` cycles and nothing afterwards, and a received
real-audio chunk resets the streak counter to 0; however, cycles on which
the queue is empty write silence unconditionally (the streak counter is
incremented but not consulted on that path). -/
theorem silence_streak_bound (b : AudioBuffer) (hb1 : b.isValid = true)
    (hb2 : 0 < b.sampleCount) (hb3 : b.isSilence = true) (n : ℕ) :
    countWrites (audioRun true true (List.replicate n (some b)) 0).2 =
      min n MAX_SILENCE_BEFORE_MUTE ∧
    countWrites (audioRun true true (List.replicate n none) 0).2 = n ∧
    (∀ (c : AudioBuffer) (sc : ℕ), c.isValid = true → 0 < c.sampleCount →
      c.isSilence = false →
      audioStep true true (some c) sc = (0, some WriteKind.real)) := by
  refine ⟨?_, audioRun_underrun_writes n 0, ?_⟩
  · have h := audioRun_silence_writes b hb1 hb2 hb3 n 0
    simpa using h
  · intro c sc hc1 hc2 hc3
    simp [audioStep, hc1, hc2, hc3]

/-- Witness for `silence_streak_bound` with the `createSilence` chunk over
7 cycles. -/
theorem silence_streak_bound_witness :
    AudioBuffer.createSilence.isValid = true ∧
    0 < AudioBuffer.createSilence.sampleCount ∧
    AudioBuffer.createSilence.isSilence = true ∧
    (countWrites
        (audioRun true true (List.replicate 7 (some AudioBuffer.createSilence)) 0).2 =
      min 7 MAX_SILENCE_BEFORE_MUTE ∧
     countWrites (audioRun true true (List.replicate 7 none) 0).2 = 7 ∧
     (∀ (c : AudioBuffer) (sc : ℕ), c.isValid = true → 0 < c.sampleCount →
       c.isSilence = false →
       audioStep true true (some c) sc = (0, some WriteKind.real))) :=
  ⟨rfl, by decide, rfl,
   silence_streak_bound AudioBuffer.createSilence rfl (by decide) rfl 7⟩

/-- The pre-buffer wait loop of `streamingTask`
(`while (waitCycles < 50 && streamingRequested) { ... if (count >= 15) break;
... waitCycles++; }`), with streaming requested held true.  `occ w` is the
queue occupancy observed on wait cycle `w`; each cycle sleeps 100 ms.
Returns the number of completed wait cycles. -/
def queueFillWait (occ : ℕ → ℕ) : ℕ → ℕ → ℕ
  | 0, w => w
  | fuel + 1, w => if 15 ≤ occ w then w else queueFillWait occ fuel (w + 1)

/-- The pre-buffering gate: wait up to 50 cycles of 100 ms for the queue to
reach 15 of its 20 slots, then set `streamingActive = true` (the line after
the loop sets the flag unconditionally). -/
def preBufferGate (occ : ℕ → ℕ) : ℕ × Bool :=
  (queueFillWait occ 50 0, true)

/-- Loop characterization of `queueFillWait`: the exit cycle is bounded by
the fuel, every earlier cycle saw occupancy below 15, and an early exit saw
occupancy at least 15. -/
theorem queueFillWait_spec (occ : ℕ → ℕ) :
    ∀ (fuel w : ℕ),
      w ≤ queueFillWait occ fuel w ∧
      queueFillWait occ fuel w ≤ w + fuel ∧
      (∀ j, w ≤ j → j < queueFillWait occ fuel w → occ j < 15) ∧
      (queueFillWait occ fuel w < w + fuel → 15 ≤ occ (queueFillWait occ fuel w)) := by
  intro fuel
  induction fuel with
  | zero =>
    intro w
    simp only [queueFillWait]
    refine ⟨le_rfl, by omega, ?_, ?_⟩
    · intro j h1 h2
      omega
    · intro h
      omega
  | succ f ih =>
    intro w
    by_cases h : 15 ≤ occ w
    · refine ⟨?_, ?_, ?_, ?_⟩ <;> simp only [queueFillWait, if_pos h]
      · exact le_rfl
      · omega
      · intro j h1 h2; omega
      · intro _; exact h
    · obtain ⟨ih1, ih2, ih3, ih4⟩ := ih (w + 1)
      refine ⟨?_, ?_, ?_, ?_⟩ <;> simp only [queueFillWait, if_neg h]
      · omega
      · omega
      · intro j h1 h2
        rcases Nat.eq_or_lt_of_le h1 with rfl | hlt
        · omega
        · exact ih3 j hlt h2
      · intro hlt
        exact ih4 (by omega)

/-- C5: the gate sets the streaming-active flag, and it does so exactly at
the first 100 ms poll cycle at which the queue occupancy reaches 15 of the
20 slots (75% of capacity), or after the bounded wait of 50 cycles (5 s) if
the threshold is never reached — whichever comes first; and while the
active flag is still false the playback loop never performs a real-audio
write, so no chunk is treated as live audio before the gate opens. -/
theorem prebuffer_gate_spec (occ : ℕ → ℕ) :
    (preBufferGate occ).2 = true ∧
    (preBufferGate occ).1 ≤ 50 ∧
    (∀ j, j < (preBufferGate occ).1 → occ j < 15) ∧
    ((preBufferGate occ).1 < 50 → 15 ≤ occ (preBufferGate occ).1) ∧
    (∀ (requested : Bool) (recv : Option AudioBuffer) (sc : ℕ),
      (audioStep false requested recv sc).2 ≠ some WriteKind.real) := by
  obtain ⟨h1, h2, h3, h4⟩ := queueFillWait_spec occ 50 0
  simp only [preBufferGate]
  refine ⟨trivial, by omega, ?_, ?_, ?_⟩
  · intro j hj
    exact h3 j (Nat.zero_le j) hj
  · intro hlt
    exact h4 (by omega)
  · intro requested recv sc
    cases recv with
    | none =>
      simp [audioStep]
    | some b =>
      simp only [audioStep]
      split
      · split
        · split <;> simp
        · rename_i hcond
          simp at hcond
      · simp

/-- Step of the re-chunking loop in `streamingTask`: the next chunk's sample
count, `(remaining > AUDIO_CHUNK_SAMPLES) ? AUDIO_CHUNK_SAMPLES : remaining`. -/
def chunkStep (remaining : ℕ) : ℕ :=
  if AUDIO_CHUNK_SAMPLES < remaining then AUDIO_CHUNK_SAMPLES else remaining

/-- The re-chunking loop of `streamingTask`
(`while (offset < sampleCount) { ... offset += chunkSize; }`) emitting the
sample count of each chunk in order.  Since each iteration consumes at
least one sample, `fuel = remaining` iterations suffice; `emitChunkSizes`
supplies that fuel. -/
def emitChunkSizesAux : ℕ → ℕ → List ℕ
  | 0, _ => []
  | fuel + 1, remaining =>
    if remaining = 0 then []
    else chunkStep remaining :: emitChunkSizesAux fuel (remaining - chunkStep remaining)

/-- Sample counts of the chunks emitted for `remaining` pending samples. -/
def emitChunkSizes (remaining : ℕ) : List ℕ :=
  emitChunkSizesAux remaining remaining

/-- Processing one HTTP read of `bytesRead` bytes:
`sampleCount = bytesRead / sizeof(int16_t)` samples are re-chunked; the
quotient discards a trailing odd byte. -/
def processRead (bytesRead : ℕ) : List ℕ :=
  emitChunkSizes (bytesRead / 2)

/-- Total bytes copied into the emitted chunks
(`chunkSize * sizeof(int16_t)` per chunk). -/
def emittedBytes (chunks : List ℕ) : ℕ :=
  (chunks.map (fun c => 2 * c)).sum

/-- Bytes retained from one read as leftover for the next read: the loop in
`streamingTask` keeps no state between reads — every read is consumed
completely (modulo the discarded odd trailing byte), so nothing is ever
retained. -/
def leftoverBytes (_bytesRead : ℕ) : ℕ := 0

/-- With enough fuel, the emitted chunk sizes sum to the pending sample
count: the loop partitions the samples without loss or duplication. -/
theorem emitChunkSizesAux_sum :
    ∀ (fuel remaining : ℕ), remaining ≤ fuel →
      (emitChunkSizesAux fuel remaining).sum = remaining := by
  intro fuel
  induction fuel with
  | zero =>
    intro remaining h
    simp only [emitChunkSizesAux, List.sum_nil]
    omega
  | succ f ih =>
    intro remaining h
    by_cases h0 : remaining = 0
    · simp [emitChunkSizesAux, h0]
    · have hstep : 0 < chunkStep remaining ∧ chunkStep remaining ≤ remaining := by
        simp only [chunkStep, AUDIO_CHUNK_SAMPLES]
        split <;> omega
      simp only [emitChunkSizesAux, if_neg h0, List.sum_cons]
      rw [ih (remaining - chunkStep remaining) (by omega)]
      omega

/-- The chunk sizes of one read sum to `bytesRead / 2` samples. -/
theorem emitChunkSizes_sum (remaining : ℕ) :
    (emitChunkSizes remaining).sum = remaining :=
  emitChunkSizesAux_sum remaining remaining le_rfl

/-- Bytes emitted for one read: twice the number of whole 16-bit samples. -/
theorem emittedBytes_processRead (bytesRead : ℕ) :
    emittedBytes (processRead bytesRead) + leftoverBytes bytesRead =
      bytesRead - bytesRead % 2 := by
  have hsum : (processRead bytesRead).sum = bytesRead / 2 :=
    emitChunkSizes_sum (bytesRead / 2)
  have hmul : emittedBytes (processRead bytesRead) = 2 * (processRead bytesRead).sum := by
    simp only [emittedBytes]
    induction processRead bytesRead with
    | nil => simp
    | cons c cs ih => simp [ih]; ring
  rw [leftoverBytes, hmul, hsum]
  omega

/-- C4 counterexample: a read of 3 bytes emits 2 bytes of chunk data and
retains nothing — one byte of the stream is lost, so emitted plus retained
does not equal the input length. -/
theorem reassembly_drops_odd_byte :
    emittedBytes (processRead 3) + leftoverBytes 3 = 2 ∧
    ¬ emittedBytes (processRead 3) + leftoverBytes 3 = 3 := by
  have h := emittedBytes_processRead 3
  constructor
  · omega
  · omega

/-- C4 amended: for each read of `B` bytes the reassembly loop copies
exactly `B - B % 2` bytes into emitted chunks and retains nothing for the
next read (a trailing odd byte is discarded, not kept as a leftover), and
every emitted chunk's byte length is even; consequently for a stream
delivered in even-length reads the total bytes copied equal the total
stream length `L`. -/
theorem reassembly_conservation (reads : List ℕ)
    (heven : ∀ B ∈ reads, B % 2 = 0) :
    (∀ B : ℕ, emittedBytes (processRead B) + leftoverBytes B = B - B % 2) ∧
    (∀ (B : ℕ), ∀ c ∈ processRead B, 2 ∣ 2 * c) ∧
    (reads.map (fun B => emittedBytes (processRead B) + leftoverBytes B)).sum =
      reads.sum := by
  refine ⟨emittedBytes_processRead, fun B c _ => Dvd.intro c rfl, ?_⟩
  induction reads with
  | nil => simp
  | cons B bs ih =>
    have hB : B % 2 = 0 := heven B (by simp)
    have hbs : ∀ b ∈ bs, b % 2 = 0 := fun b hb => heven b (by simp [hb])
    simp only [List.map_cons, List.sum_cons, ih hbs, emittedBytes_processRead B]
    omega

/-- Witness for `reassembly_conservation` on two even reads of 6400 and 4
bytes. -/
theorem reassembly_conservation_witness :
    (∀ B ∈ ([6400, 4] : List ℕ), B % 2 = 0) ∧
    ((∀ B : ℕ, emittedBytes (processRead B) + leftoverBytes B = B - B % 2) ∧
     (∀ (B : ℕ), ∀ c ∈ processRead B, 2 ∣ 2 * c) ∧
     (([6400, 4] : List ℕ).map
        (fun B => emittedBytes (processRead B) + leftoverBytes B)).sum =
       ([6400, 4] : List ℕ).sum) :=
  ⟨by decide, reassembly_conservation [6400, 4] (by decide)⟩

/-- C1: on a full queue of capacity `cap`, a synthetic-generator send leaves
the queue (hence `count()` and the front element) unchanged, while a
network-puller send dequeues the oldest chunk and enqueues the new one at
the back, leaving `count()` equal to `cap` with the new chunk last. -/
theorem full_queue_send_policies {α : Type} (cap : ℕ) (q : List α) (b : α)
    (hfull : q.length = cap) (hpos : 0 < cap) :
    syntheticSend cap q b = q ∧
    (syntheticSend cap q b).length = cap ∧
    (syntheticSend cap q b).head? = q.head? ∧
    networkSend cap q b = q.drop 1 ++ [b] ∧
    (networkSend cap q b).length = cap ∧
    (networkSend cap q b).getLast? = some b := by
  have hnot : ¬ q.length < cap := by omega
  have hsub : cap - q.length = 0 := by omega
  refine ⟨?_, ?_, ?_, ?_, ?_, ?_⟩
  · simp [syntheticSend, hnot]
  · simp [syntheticSend, hnot, hfull]
  · simp [syntheticSend, hnot]
  · simp [networkSend, hsub]
  · simp [networkSend, hsub, hfull]
    omega
  · simp [networkSend, hsub]

/-- Witness for `full_queue_send_policies` at capacity 2 with queue `[0, 1]`
and new element 7. -/
theorem full_queue_send_policies_witness :
    ([0, 1] : List ℕ).length = 2 ∧ 0 < 2 ∧
    (syntheticSend 2 [0, 1] 7 = [0, 1] ∧
     (syntheticSend 2 [0, 1] 7).length = 2 ∧
     (syntheticSend 2 [0, 1] 7).head? = ([0, 1] : List ℕ).head? ∧
     networkSend 2 [0, 1] 7 = ([0, 1] : List ℕ).drop 1 ++ [7] ∧
     (networkSend 2 [0, 1] 7).length = 2 ∧
     (networkSend 2 [0, 1] 7).getLast? = some 7) :=
  ⟨by decide, by decide, full_queue_send_policies 2 [0, 1] 7 (by decide) (by decide)⟩

/-- C8 (code bug): `AudioBuffer(data, count)` stores `sampleCount = count`
even when `count` exceeds the `AUDIO_CHUNK_SAMPLES` capacity of the sample
array — only the `memcpy` is guarded, the count is not clamped.  At
`count = 1601` the constructed buffer violates `sampleCount <= capacity`. -/
theorem audioBuffer_count_exceeds_capacity :
    (mkAudioBuffer (List.replicate 1601 7) 1601).sampleCount = 1601 ∧
    ¬ (mkAudioBuffer (List.replicate 1601 7) 1601).sampleCount ≤ AUDIO_CHUNK_SAMPLES := by
  constructor
  · rfl
  · intro h
    have : (mkAudioBuffer (List.replicate 1601 7) 1601).sampleCount = 1601 := rfl
    rw [this] at h
    simp [AUDIO_CHUNK_SAMPLES] at h

/-- C7 counterexample: starting from a requested/active state whose queue
holds one chunk, `stopPCMStreaming` empties the queue — `count()` drops from
1 to 0, so the stop operation does not leave queued chunks in place. -/
theorem stop_drains_queue_counterexample :
    (stopPCMStreaming stopExampleState).queue.length ≠ stopExampleState.queue.length := by
  simp [stopPCMStreaming, stopExampleState]

/-- C7 amended: a stop-stream request with streaming requested clears both
control flags and drains the buffer queue to empty (`count()` becomes 0);
nothing is left for the consumer.  When streaming was not requested the
state is unchanged. -/
theorem stop_clears_flags_and_drains_queue (s : StreamControl)
    (h : s.streamingRequested = true) :
    stopPCMStreaming s = ⟨false, false, []⟩ := by
  simp [stopPCMStreaming, h]

/-- Witness for `stop_clears_flags_and_drains_queue` at `stopExampleState`. -/
theorem stop_clears_flags_and_drains_queue_witness :
    stopExampleState.streamingRequested = true ∧
    stopPCMStreaming stopExampleState = ⟨false, false, []⟩ :=
  ⟨rfl, stop_clears_flags_and_drains_queue stopExampleState rfl⟩

/-- C9: applying the Codec/Volume Stage at volume 100 or more is the
identity — every sample is returned bit-identical to the input. -/
theorem applyVolumeControl_at_100_is_identity (vol : ℕ) (samples : List ℤ)
    (h : 100 ≤ vol) :
    applyVolumeControl vol samples = samples := by
  simp [applyVolumeControl, h]

/-- Witness for `applyVolumeControl_at_100_is_identity` at volume 100 on a
concrete buffer. -/
theorem applyVolumeControl_at_100_is_identity_witness :
    100 ≤ 100 ∧ applyVolumeControl 100 [32767, -5, 0, 12] = [32767, -5, 0, 12] :=
  ⟨by decide, applyVolumeControl_at_100_is_identity 100 [32767, -5, 0, 12] (by decide)⟩

/-- C10: `setVolume` stores `min(level, 100)`, so after any sequence of
`setVolume` calls (starting from the initial volume 75) `getVolume` returns
at most 100. -/
theorem setVolume_clamps_to_100 :
    (∀ level : ℕ, setVolume level = min level 100) ∧
    (∀ levels : List ℕ,
      getVolume (levels.foldl (fun _ l => setVolume l) initialVolume) ≤ 100) := by
  have hset : ∀ level : ℕ, setVolume level = min level 100 := by
    intro level
    by_cases h : 100 < level
    · simp [setVolume, h]
      omega
    · simp [setVolume, h]
      omega
  have haux : ∀ (ls : List ℕ) (v : ℕ), v ≤ 100 →
      ls.foldl (fun _ l => setVolume l) v ≤ 100 := by
    intro ls
    induction ls with
    | nil => intro v hv; simpa using hv
    | cons l ls ih =>
      intro v hv
      simp only [List.foldl_cons]
      exact ih (setVolume l) (by rw [hset]; omega)
  refine ⟨hset, ?_⟩
  intro levels
  exact haux levels initialVolume (by decide)
